import Mathlib

/-!
Shallow embedding of the booking-reviews scraper pipeline
(`multi_thread_booking_scraper.py` and
`booking/scraping_all_booking_with_categories.py`): the data-validator
helpers, URL discovery and deduplication, work chunking, the shared CSV
writer, and the worker loop's batch/flush control flow.
-/

/-- Python truthiness of an optional string value: `None` and `""` are falsy. -/
def pyTruthy : Option String → Bool
  | none => false
  | some s => !(s == "")

/-- Python truthiness of an optional float value: `None` and `0.0` are falsy. -/
def pyTruthyFloat : Option Rat → Bool
  | none => false
  | some x => !(x == 0)

/-- Value of a list of digit characters, most significant first. -/
def digitsToNat (cs : List Char) : Nat :=
  cs.foldl (fun a c => 10 * a + (c.toNat - 48)) 0

/-- Model of Python `float(...)` on an unsigned character list: digits with at
most one decimal point, at least one digit overall.  Exponents, underscores
and the special values `inf`/`nan` are not modelled. -/
def pyFloatCore (cs : List Char) : Option Rat :=
  match cs.splitOn '.' with
  | [i] => if i ≠ [] ∧ i.all Char.isDigit then some (mkRat (digitsToNat i) 1) else none
  | [i, f] =>
      if (i ≠ [] ∨ f ≠ []) ∧ i.all Char.isDigit ∧ f.all Char.isDigit then
        some (mkRat (digitsToNat i * 10 ^ f.length + digitsToNat f) (10 ^ f.length))
      else none
  | _ => none

/-- Model of Python `float(...)`: an optional sign followed by a decimal
literal; parse failure (Python `ValueError`/`TypeError`) is `none`. -/
def pyFloatChars : List Char → Option Rat
  | '-' :: rest => (pyFloatCore rest).map (fun x => -x)
  | '+' :: rest => pyFloatCore rest
  | cs => pyFloatCore cs

/-- `float(...)` applied to a string. -/
def pyFloat (s : String) : Option Rat := pyFloatChars s.toList

/-- The characters kept by `re.sub(r'[^\d.,]', '', ...)` in `normalize_price`. -/
def numericChars (s : String) : List Char :=
  s.toList.filter (fun c => c.isDigit || c == '.' || c == ',')

/-- `DataValidator.normalize_price`: strip every character other than digits,
`.` and `,`; if both `,` and `.` remain, drop the commas (thousands
separators); if only `,` remains, turn each comma into a decimal point; then
parse as a float, with parse failure giving `None` instead of an error. -/
def normalize_price (price_text : String) : Option Rat :=
  if price_text = "" then none
  else
    let cs := numericChars price_text
    let cs2 :=
      if cs.contains ',' && cs.contains '.' then cs.filter (fun c => c ≠ ',')
      else if cs.contains ',' then cs.map (fun c => if c = ',' then '.' else c)
      else cs
    pyFloatChars cs2

/-- `DataValidator.validate_coordinates`: parse both strings as floats and
return the pair unchanged when latitude lies in [-90, 90] and longitude in
[-180, 180]; in every other case (parse failure or a bound violated) return
`(None, None)`. -/
def validate_coordinates (lat lng : String) : Option Rat × Option Rat :=
  match pyFloat lat, pyFloat lng with
  | some latF, some lngF =>
      if -90 ≤ latF ∧ latF ≤ 90 ∧ -180 ≤ lngF ∧ lngF ≤ 180 then (some latF, some lngF)
      else (none, none)
  | _, _ => (none, none)

/-- The fields of a scraped apartment record that
`DataValidator.validate_apartment_data` inspects. -/
structure ApartmentData where
  title : Option String
  price_per_night : Option Rat
  address : Option String
  zone : Option String

/-- `DataValidator.validate_apartment_data`: reject unless the title is truthy
and at least one of `price_per_night`, `address`, `zone` is truthy. -/
def validate_apartment_data (data : ApartmentData) : Bool :=
  if !(pyTruthy data.title) then false
  else if !(pyTruthyFloat data.price_per_night || pyTruthy data.address ||
            pyTruthy data.zone) then false
  else true

/-- Python's default whitespace set for `str.strip()` (ASCII part). -/
def isPySpace (c : Char) : Bool :=
  c == ' ' || c == '\t' || c == '\n' || c == '\r' || c == '\x0b' || c == '\x0c'

/-- Python `str.strip()` on a character list. -/
def pyStrip (cs : List Char) : List Char :=
  ((cs.dropWhile isPySpace).reverse.dropWhile isPySpace).reverse

/-- Python `needle in hay` substring test on character lists. -/
def containsSub (needle : List Char) : List Char → Bool
  | [] => needle.isEmpty
  | c :: t => needle.isPrefixOf (c :: t) || containsSub needle t

/-- The predicate of the part-selection loop of `GeocodeService.extract_zone`:
the part mentions an arrondissement or a district. -/
def isArrPart (p : List Char) : Bool :=
  containsSub ("Arrondissement".toList) p || containsSub ("District".toList) p

/-- The body of `GeocodeService.extract_zone` after splitting and stripping:
`arrondissement` is the first part mentioning `Arrondissement` or `District`
(the loop with `break`), `index` its position recovered via `parts.index`,
and `quartier` the preceding part when there is one; a truthy `quartier` is
combined with the arrondissement, a bare arrondissement is returned stripped,
and everything else falls back to `"Unknown"`. -/
def zone_from_parts (parts : List (List Char)) : String :=
  match parts.find? isArrPart with
  | none => "Unknown"
  | some arrondissement =>
    if 0 < parts.indexOf arrondissement then
      if parts.getD (parts.indexOf arrondissement - 1) [] ≠ [] then
        String.mk (pyStrip (parts.getD (parts.indexOf arrondissement - 1) []) ++
          (" - ".toList) ++ pyStrip arrondissement)
      else String.mk (pyStrip arrondissement)
    else String.mk (pyStrip arrondissement)

/-- `GeocodeService.extract_zone`: a falsy address gives `"Unknown"`;
otherwise split the address on commas, strip each part and delegate. -/
def extract_zone : Option String → String
  | none => "Unknown"
  | some a =>
    if a = "" then "Unknown"
    else zone_from_parts ((a.toList.splitOn ',').map pyStrip)

/-- The canonical part of a listing URL: everything before the first `?`
(`href.split('?')[0]`). -/
def canonical (s : String) : String := String.mk (s.toList.takeWhile (fun c => c ≠ '?'))

/-- The link-collection loop of `scrape_property_urls` (lines 87-98 of
`multi_thread_booking_scraper.py`): walk the scraped `href`s in order, skip
falsy ones, and append an href to the result exactly when its canonical form
has not been seen yet, recording the canonical form in `seen`. -/
def collect_urls : List (Option String) → List String → List String
  | [], _ => []
  | none :: rest, seen => collect_urls rest seen
  | some h :: rest, seen =>
    if h = "" then collect_urls rest seen
    else if canonical h ∈ seen then collect_urls rest seen
    else h :: collect_urls rest (canonical h :: seen)

/-- Testing cap on the number of returned property URLs. -/
def TEST_MAX_PROPERTIES : Nat := 15

/-- `scrape_property_urls`: deduplicate the discovered hrefs by canonical
form, keeping the original query-bearing hrefs, then truncate to the testing
cap when it is set. -/
def scrape_property_urls (hrefs : List (Option String)) : List String :=
  if TEST_MAX_PROPERTIES ≠ 0 then (collect_urls hrefs []).take TEST_MAX_PROPERTIES
  else collect_urls hrefs []

/-- One page's link collection in `BookingApartmentScraper._load_all_listings`
(line 492): the set comprehension keeps, for each truthy href, its
query-stripped canonical form. -/
def collect_page_links (hrefs : List (Option String)) : List String :=
  ((hrefs.filterMap id).filter (fun h => h ≠ "")).map canonical

/-- Python `set.update`, modelled on a duplicate-free list: insert each new
element unless already present. -/
def set_update (all_links : List String) (page : List String) : List String :=
  page.foldl (fun acc c => if c ∈ acc then acc else acc ++ [c]) all_links

/-- The accumulation of `all_links` across the pagination loop of
`BookingApartmentScraper._load_all_listings`, returned as `list(all_links)`. -/
def load_all_listings (pages : List (List (Option String))) : List String :=
  pages.foldl (fun acc page => set_update acc (collect_page_links page)) []

/-- The chunking step of `scrape_booking_properties` (lines 832-842): slice
the URL list into `num_threads` ranges of `len // num_threads` URLs, the last
chunk absorbing the remainder; ranges starting past the end are dropped. -/
def chunk_urls {α : Type} (urls : List α) (num_threads : Nat) : List (List α) :=
  (List.range num_threads).filterMap (fun i =>
    let chunk_size := urls.length / num_threads
    let start := i * chunk_size
    let stop := if i = num_threads - 1 then urls.length else start + chunk_size
    if start < urls.length then some ((urls.drop start).take (stop - start)) else none)

/-- A scraped record as passed to the CSV writer: an association list from
field name to an optional (possibly `None`) string value. -/
abbrev Item : Type := List (String × Option String)

/-- `get_all_possible_fields`: the predefined CSV field order. -/
def all_possible_fields : List String :=
  ["property_id", "scrape_timestamp", "property_url", "category",
   "general_review", "general_review_count", "comfort_score", "value_score",
   "location_score", "wifi_score", "avg_review_score_all",
   "avg_review_score_all_count", "avg_review_score_families",
   "avg_review_score_families_count", "avg_review_score_couples",
   "avg_review_score_couples_count", "avg_review_score_solo_travelers",
   "avg_review_score_solo_travelers_count",
   "avg_review_score_business_travellers",
   "avg_review_score_business_travellers_count",
   "avg_review_score_groups_friends", "avg_review_score_groups_friends_count",
   "min_price", "max_price", "latitude", "longitude", "address", "zone",
   "city", "wifi_speed"]

/-- Lexicographic comparison of character lists by code point, the order
Python's `sorted` uses on strings. -/
def lexLe : List Char → List Char → Bool
  | [], _ => true
  | _ :: _, [] => false
  | a :: as, b :: bs => if a = b then lexLe as bs else a.toNat ≤ b.toNat

/-- Insert a string into a list sorted by `lexLe`. -/
def insertSorted (x : String) : List String → List String
  | [] => [x]
  | y :: ys => if lexLe x.toList y.toList then x :: y :: ys else y :: insertSorted x ys

/-- Insertion sort by `lexLe`, modelling Python's `sorted` on strings. -/
def sortStrings : List String → List String
  | [] => []
  | x :: xs => insertSorted x (sortStrings xs)

/-- Remove duplicates, keeping first occurrences (the membership of Python's
`set`, with a deterministic order that `sorted` then discards). -/
def dedupFirst : List String → List String
  | [] => []
  | x :: xs => x :: (dedupFirst xs).filter (fun y => !(y == x))

/-- The dynamic fields of a batch: keys of its items that are not predefined,
deduplicated and sorted (`sorted(list(dynamic_fields))`). -/
def dynamic_fields (data_list : List Item) : List String :=
  sortStrings (dedupFirst ((data_list.map (fun it => it.map Prod.fst)).flatten.filter
      (fun k => !(all_possible_fields.contains k))))

/-- Flush of a non-empty pending batch (`if batch: save_to_csv(batch, ...)`). -/
def flush_if_nonempty {β : Type} (batch : List β) : List (List β) :=
  match batch with
  | [] => []
  | b :: bs => [b :: bs]

/-- The default CSV cell for a field absent from an item (or mapped to
`None`): the empty string for the text and coordinate fields, `"0"` for the
numeric ones; `property_url` falls back to `item.get('property_url', '')`,
which is also the empty string in this branch. -/
def defaultFor (f : String) : String :=
  if f = "property_url" then ""
  else if f ∈ ["category", "address", "zone", "city", "wifi_speed"] then ""
  else if f ∈ ["latitude", "longitude"] then ""
  else "0"

/-- The CSV cell emitted for field `f` of an item: the item's value when the
key is present with a non-`None` value, the default otherwise. -/
def cellFor (it : Item) (f : String) : String :=
  match (it.find? (fun kv => kv.1 == f)).map Prod.snd with
  | some (some v) => v
  | some none => defaultFor f
  | none => defaultFor f

/-- The in-memory field order used for a write against an existing store:
the persisted header first, then every not-yet-known field of
`base ++ dynamic` appended in order (`save_to_csv` lines 736-742); an empty
persisted header (empty existing file) is not merged into. -/
def merged_fieldnames (hdr : List String) (data_list : List Item) : List String :=
  if hdr = [] then all_possible_fields ++ dynamic_fields data_list
  else hdr ++ (all_possible_fields ++ dynamic_fields data_list).filter
      (fun f => !(hdr.contains f))

/-- The rows `save_to_csv` emits for a batch: one row per item, one cell per
merged in-memory field. -/
def row_block (hdr : List String) (data_list : List Item) : List (List String) :=
  data_list.map (fun it => (merged_fieldnames hdr data_list).map (cellFor it))

/-- `save_to_csv`, acting on the persistent store modelled as
`Option (header × rows)` (`none` = the file does not exist yet).  An empty
batch leaves the store untouched.  On a fresh store the header
`base ++ sorted dynamic fields` is written; on an existing store the file is
opened in append mode and the header line is never rewritten — only rows are
appended, laid out by the merged in-memory field order. -/
def save_to_csv (data_list : List Item) (store : Option (List String × List (List String))) :
    Option (List String × List (List String)) :=
  match data_list with
  | [] => store
  | _ :: _ =>
    match store with
    | none => some (all_possible_fields ++ dynamic_fields data_list, row_block [] data_list)
    | some (hdr, rows) => some (hdr, rows ++ row_block hdr data_list)

/-- The field of a store holding the persisted header line. -/
def headerOf (store : Option (List String × List (List String))) : List String :=
  match store with
  | none => []
  | some (hdr, _) => hdr

/-- The field of a store holding the persisted data rows. -/
def rowsOf (store : Option (List String × List (List String))) : List (List String) :=
  match store with
  | none => []
  | some (_, rows) => rows

/-- Outcome of one extraction strategy of `_extract_price`: either the
strategy raises, or it returns a (stringified) optional value. -/
inductive StratResult where
  | raise : StratResult
  | ret : Option String → StratResult

/-- Truthiness of a strategy outcome: only a non-empty returned string. -/
def strat_truthy : StratResult → Bool
  | .ret (some s) => !(s == "")
  | _ => false

/-- `BookingApartmentScraper._extract_price` (lines 704-719): try the
strategies in order; a raising or falsy strategy falls through to the next;
the first truthy raw value is returned through
`DataValidator.normalize_price` — even when that normalization fails. -/
def extract_price : List StratResult → Option Rat
  | [] => none
  | .raise :: rest => extract_price rest
  | .ret none :: rest => extract_price rest
  | .ret (some s) :: rest =>
      if s ≠ "" then normalize_price s else extract_price rest

/-- The records a worker accepts into its batch before its loop terminates
(either the chunk is exhausted or the interrupt arrives at the loop
boundary): `none` from `scrape` models a per-URL exception, which is logged
and skipped. -/
def accepted_until {α β : Type} (scrape : α → Option β) (intr : Nat → Bool) :
    List α → Nat → List β
  | [], _ => []
  | u :: rest, i =>
    if intr i then []
    else
      match scrape u with
      | none => accepted_until scrape intr rest (i + 1)
      | some r => r :: accepted_until scrape intr rest (i + 1)

/-- The batches `worker_thread` (lines 775-812) passes to `save_to_csv`, in
order.  `i` is the 1-based `enumerate` index and `total` the chunk length.
A full batch (or the last index) is flushed and reset inside the loop; a
`KeyboardInterrupt` observed at the loop boundary flushes the pending
non-empty batch in the `except` handler and then again in the `finally`
block (the batch is not cleared in between); normal exhaustion flushes any
leftover batch once, in the `finally` block. -/
def worker_flushes {α β : Type} (scrape : α → Option β) (intr : Nat → Bool)
    (total batch_size : Nat) : List α → Nat → List β → List (List β)
  | [], _, batch => flush_if_nonempty batch
  | u :: rest, i, batch =>
    if intr i then
      flush_if_nonempty batch ++ flush_if_nonempty batch
    else
      match scrape u with
      | none => worker_flushes scrape intr total batch_size rest (i + 1) batch
      | some r =>
        if batch_size ≤ (batch ++ [r]).length ∨ i = total then
          (batch ++ [r]) :: worker_flushes scrape intr total batch_size rest (i + 1) []
        else worker_flushes scrape intr total batch_size rest (i + 1) (batch ++ [r])

/-- A worker's whole run over its chunk. -/
def worker_thread {α β : Type} (scrape : α → Option β) (intr : Nat → Bool)
    (urls_chunk : List α) (batch_size : Nat) : List (List β) :=
  worker_flushes scrape intr urls_chunk.length batch_size urls_chunk 1 []

/-- C5: `validate_apartment_data` accepts a record exactly when the title is
non-empty and at least one of the substance fields `price_per_night`,
`address`, `zone` carries a truthy value; in particular a record with only a
title is rejected and a record with the title plus exactly one substance
field is accepted. -/
theorem validate_apartment_data_gate :
    (∀ d : ApartmentData, validate_apartment_data d = true ↔
      (pyTruthy d.title = true ∧
        (pyTruthyFloat d.price_per_night = true ∨ pyTruthy d.address = true ∨
         pyTruthy d.zone = true))) ∧
    validate_apartment_data ⟨some "Nice Apartment", none, some "", none⟩ = false ∧
    validate_apartment_data ⟨some "Nice Apartment", none, some "12 Rue X", none⟩ = true := by
  refine ⟨fun d => ?_, by decide, by decide⟩
  unfold validate_apartment_data
  cases h1 : pyTruthy d.title <;> cases h2 : pyTruthyFloat d.price_per_night <;>
    cases h3 : pyTruthy d.address <;> cases h4 : pyTruthy d.zone <;> simp_all

/-- C5 witness: a record with a title and only the price populated is
accepted. -/
theorem validate_apartment_data_gate_witness :
    validate_apartment_data ⟨some "Apt", some (mkRat 100 1), none, none⟩ = true :=
  (validate_apartment_data_gate.1 ⟨some "Apt", some (mkRat 100 1), none, none⟩).mpr
    ⟨by decide, Or.inl (by decide)⟩

/-- C6: `validate_coordinates` returns the parsed pair unchanged exactly when
both strings parse and the bounds -90 ≤ lat ≤ 90, -180 ≤ lng ≤ 180 hold; in
every other case both components are dropped together as `(None, None)`;
`(91, 10)` is rejected and `(45.5, -73.6)` is accepted unchanged. -/
theorem validate_coordinates_pair :
    (∀ lat lng latF lngF, pyFloat lat = some latF → pyFloat lng = some lngF →
        -90 ≤ latF → latF ≤ 90 → -180 ≤ lngF → lngF ≤ 180 →
        validate_coordinates lat lng = (some latF, some lngF)) ∧
    (∀ lat lng, (∀ latF lngF, pyFloat lat = some latF → pyFloat lng = some lngF →
        ¬(-90 ≤ latF ∧ latF ≤ 90 ∧ -180 ≤ lngF ∧ lngF ≤ 180)) →
        validate_coordinates lat lng = (none, none)) ∧
    validate_coordinates "91" "10" = (none, none) ∧
    validate_coordinates "45.5" "-73.6" = (some (mkRat 91 2), some (mkRat (-368) 5)) := by
  refine ⟨?_, ?_, by decide, by decide⟩
  · intro lat lng latF lngF h1 h2 hb1 hb2 hb3 hb4
    unfold validate_coordinates
    rw [h1, h2]
    simp [hb1, hb2, hb3, hb4]
  · intro lat lng h
    unfold validate_coordinates
    cases hx : pyFloat lat with
    | none => rfl
    | some latF =>
      cases hy : pyFloat lng with
      | none => rfl
      | some lngF => simp [h latF lngF hx hy]

/-- C6 witness: `(45.5, -73.6)` is accepted unchanged, through the general
acceptance clause. -/
theorem validate_coordinates_pair_witness :
    validate_coordinates "45.5" "-73.6" = (some (mkRat 91 2), some (mkRat (-368) 5)) :=
  validate_coordinates_pair.1 "45.5" "-73.6" (mkRat 91 2) (mkRat (-368) 5)
    (by decide) (by decide) (by decide) (by decide) (by decide) (by decide)

/-- C7: `normalize_price` turns `"1,234.56"` into `1234.56` (comma dropped as
a thousands separator when both separators appear), `"1234,56"` into
`1234.56` (lone comma read as a decimal point), and returns `None` instead
of an error on unparsable text such as `"abc"`; the two general clauses state
the comma treatment for any non-empty input. -/
theorem normalize_price_rules :
    normalize_price "1,234.56" = some (mkRat 123456 100) ∧
    normalize_price "1234,56" = some (mkRat 123456 100) ∧
    normalize_price "abc" = none ∧
    (∀ s, s ≠ "" → (numericChars s).contains ',' = true →
      (numericChars s).contains '.' = true →
      normalize_price s = pyFloatChars ((numericChars s).filter (fun c => c ≠ ','))) ∧
    (∀ s, s ≠ "" → (numericChars s).contains ',' = true →
      (numericChars s).contains '.' = false →
      normalize_price s =
        pyFloatChars ((numericChars s).map (fun c => if c = ',' then '.' else c))) := by
  refine ⟨by decide, by decide, by decide, ?_, ?_⟩
  · intro s hs h1 h2
    unfold normalize_price
    rw [if_neg hs]
    simp at h1 h2
    simp [h1, h2]
  · intro s hs h1 h2
    unfold normalize_price
    rw [if_neg hs]
    simp at h1 h2
    simp [h1, h2]

/-- C7 witness: the lone-comma clause applied to `"9,5"`. -/
theorem normalize_price_rules_witness :
    normalize_price "9,5" =
      pyFloatChars ((numericChars "9,5").map (fun c => if c = ',' then '.' else c)) :=
  normalize_price_rules.2.2.2.2 "9,5" (by decide) (by decide) (by decide)

/-- C4 counterexample: with strategies [raises, returns "abc", returns "5"],
the first strategy yielding a non-empty value that passes validation is the
third one (`"abc"` is non-empty but fails `normalize_price`, `"5"` validates
to 5), yet `_extract_price` returns `None`: it feeds the first truthy raw
value to `normalize_price` and returns whatever that gives, never falling
through to a later strategy when validation fails. -/
theorem extract_price_unvalidated_short_circuit :
    extract_price [.raise, .ret (some "abc"), .ret (some "5")] = none ∧
    normalize_price "abc" = none ∧
    normalize_price "5" = some (mkRat 5 1) := by decide

/-- C4 amended: `_extract_price` tries the strategies in order and returns
the `normalize_price` of the first truthy raw value, never consulting later
strategies — even when that normalization fails; raising or falsy strategies
fall through. -/
theorem extract_price_first_truthy (pre post : List StratResult) (s : String)
    (hpre : ∀ r ∈ pre, strat_truthy r = false) (hs : s ≠ "") :
    extract_price (pre ++ StratResult.ret (some s) :: post) = normalize_price s := by
  induction pre with
  | nil => simp [extract_price, hs]
  | cons a as ih =>
    have ha := hpre a (by simp)
    have has : ∀ r ∈ as, strat_truthy r = false := fun r hr => hpre r (by simp [hr])
    cases a with
    | raise => simpa [extract_price] using ih has
    | ret v =>
      cases v with
      | none => simpa [extract_price] using ih has
      | some t =>
        have ht : t = "" := by
          by_contra hne
          simp [strat_truthy, hne] at ha
        subst ht
        simpa [extract_price] using ih has

/-- C4 witness: the spec's P7 example — [fails, succeeds with 5, succeeds
with 9] returns 5, the value of the second strategy. -/
theorem extract_price_first_truthy_witness :
    extract_price [.raise, .ret (some "5"), .ret (some "9")] = normalize_price "5" ∧
    normalize_price "5" = some (mkRat 5 1) :=
  ⟨extract_price_first_truthy [.raise] [.ret (some "9")] "5" (by decide) (by decide),
   by decide⟩


lemma mem_of_isPrefixOfChars {l₁ l₂ : List Char} (h : l₁.isPrefixOf l₂ = true) {c : Char}
    (hc : c ∈ l₁) : c ∈ l₂ := by
  rw [List.isPrefixOf_iff_prefix] at h
  exact h.sublist.subset hc

lemma mem_of_containsSub : ∀ {hay needle : List Char}, containsSub needle hay = true →
    ∀ {c : Char}, c ∈ needle → c ∈ hay := by
  intro hay
  induction hay with
  | nil =>
    intro needle h c hc
    simp [containsSub, List.isEmpty_iff] at h
    subst h
    cases hc
  | cons x t ih =>
    intro needle h c hc
    rw [containsSub, Bool.or_eq_true] at h
    rcases h with h | h
    · exact mem_of_isPrefixOfChars h hc
    · exact List.mem_cons_of_mem _ (ih h hc)

lemma mem_dropWhile_of_neg {p : Char → Bool} : ∀ {l : List Char} {c : Char}, c ∈ l →
    p c = false → c ∈ l.dropWhile p := by
  intro l
  induction l with
  | nil => intro c hc; cases hc
  | cons a t ih =>
    intro c hc hp
    rcases List.mem_cons.mp hc with rfl | h
    · rw [List.dropWhile_cons, if_neg (by simp [hp])]
      exact List.mem_cons_self _ _
    · rw [List.dropWhile_cons]
      by_cases ha : p a = true
      · rw [if_pos ha]
        exact ih h hp
      · rw [if_neg ha]
        exact List.mem_cons_of_mem _ h

lemma mem_pyStrip {l : List Char} {c : Char} (hc : c ∈ l) (hp : isPySpace c = false) :
    c ∈ pyStrip l := by
  unfold pyStrip
  rw [List.mem_reverse]
  exact mem_dropWhile_of_neg (List.mem_reverse.mpr (mem_dropWhile_of_neg hc hp)) hp

lemma pyStrip_arr_ne_nil {p : List Char} (h : isArrPart p = true) : pyStrip p ≠ [] := by
  unfold isArrPart at h
  rw [Bool.or_eq_true] at h
  rcases h with h | h
  · have hA : ('A' : Char) ∈ "Arrondissement".toList := by decide
    exact List.ne_nil_of_mem (mem_pyStrip (mem_of_containsSub h hA) (by decide))
  · have hD : ('D' : Char) ∈ "District".toList := by decide
    exact List.ne_nil_of_mem (mem_pyStrip (mem_of_containsSub h hD) (by decide))

lemma mk_ne_empty {l : List Char} (h : l ≠ []) : String.mk l ≠ "" :=
  fun he => h (congrArg String.data he)

lemma zone_from_parts_ne_empty (parts : List (List Char)) : zone_from_parts parts ≠ "" := by
  unfold zone_from_parts
  split
  · decide
  · rename_i arr hf
    have hne := pyStrip_arr_ne_nil (List.find?_some hf)
    split_ifs with h0 hq
    · exact mk_ne_empty (by simp)
    · exact mk_ne_empty hne
    · exact mk_ne_empty hne

/-- C10: `extract_zone` returns a non-empty string for every input (the
sentinel `"Unknown"` in the fallback cases), so a record whose zone was
produced by `extract_zone` always carries a truthy substance field and
`validate_apartment_data` accepts it whenever the title is non-empty, even
with price and address absent. -/
theorem extract_zone_always_substance :
    (∀ addr : Option String, extract_zone addr ≠ "") ∧
    (∀ (addr : Option String) (t : String), t ≠ "" →
      validate_apartment_data ⟨some t, none, none, some (extract_zone addr)⟩ = true) := by
  have h1 : ∀ addr : Option String, extract_zone addr ≠ "" := by
    intro addr
    cases addr with
    | none => decide
    | some a =>
      simp only [extract_zone]
      by_cases ha : a = ""
      · rw [if_pos ha]
        decide
      · rw [if_neg ha]
        exact zone_from_parts_ne_empty _
  refine ⟨h1, fun addr t ht => ?_⟩
  have hz := h1 addr
  simp [validate_apartment_data, pyTruthy, pyTruthyFloat, ht, hz]

/-- C10 witness: a record with a title and an `extract_zone`-produced zone
from an address with no district part is accepted. -/
theorem extract_zone_always_substance_witness :
    validate_apartment_data
      ⟨some "Apt", none, none, some (extract_zone (some "nowhere special"))⟩ = true :=
  extract_zone_always_substance.2 (some "nowhere special") "Apt" (by decide)

lemma collect_urls_subset : ∀ (hrefs : List (Option String)) (seen : List String) {u : String},
    u ∈ collect_urls hrefs seen → some u ∈ hrefs := by
  intro hrefs
  induction hrefs with
  | nil =>
    intro seen u h
    simp [collect_urls] at h
  | cons a rest ih =>
    intro seen u h
    cases a with
    | none =>
      simp only [collect_urls] at h
      exact List.mem_cons_of_mem _ (ih seen h)
    | some s =>
      simp only [collect_urls] at h
      split_ifs at h with h1 h2
      · exact List.mem_cons_of_mem _ (ih seen h)
      · exact List.mem_cons_of_mem _ (ih seen h)
      · rcases List.mem_cons.mp h with rfl | h3
        · exact List.mem_cons_self _ _
        · exact List.mem_cons_of_mem _ (ih _ h3)

lemma collect_urls_nodup_inv : ∀ (hrefs : List (Option String)) (seen : List String),
    ((collect_urls hrefs seen).map canonical).Nodup ∧
    ∀ c ∈ (collect_urls hrefs seen).map canonical, c ∉ seen := by
  intro hrefs
  induction hrefs with
  | nil =>
    intro seen
    simp [collect_urls]
  | cons a rest ih =>
    intro seen
    cases a with
    | none => simpa only [collect_urls] using ih seen
    | some s =>
      simp only [collect_urls]
      split_ifs with h1 h2
      · exact ih seen
      · exact ih seen
      · obtain ⟨hnd, hinv⟩ := ih (canonical s :: seen)
        constructor
        · simp only [List.map_cons, List.nodup_cons]
          exact ⟨fun hmem => (hinv _ hmem) (List.mem_cons_self _ _), hnd⟩
        · intro c hc
          simp only [List.map_cons, List.mem_cons] at hc
          rcases hc with rfl | hc
          · exact h2
          · exact fun hcs => (hinv _ hc) (List.mem_cons_of_mem _ hcs)

lemma collect_urls_complete : ∀ (hrefs : List (Option String)) (seen : List String)
    (h : String), some h ∈ hrefs → h ≠ "" →
    canonical h ∈ seen ∨ canonical h ∈ (collect_urls hrefs seen).map canonical := by
  intro hrefs
  induction hrefs with
  | nil =>
    intro seen h hm
    cases hm
  | cons a rest ih =>
    intro seen h hm hne
    rcases List.mem_cons.mp hm with heq | hm2
    · subst heq
      simp only [collect_urls]
      split_ifs with h1 h2
      · exact absurd h1 hne
      · exact Or.inl h2
      · exact Or.inr (by simp)
    · cases a with
      | none =>
        simpa only [collect_urls] using ih seen h hm2 hne
      | some s =>
        simp only [collect_urls]
        split_ifs with h1 h2
        · exact ih seen h hm2 hne
        · exact ih seen h hm2 hne
        · rcases ih (canonical s :: seen) h hm2 hne with hin | hin
          · rcases List.mem_cons.mp hin with heq2 | hin2
            · exact Or.inr (by simp [heq2])
            · exact Or.inl hin2
          · exact Or.inr (by simp only [List.map_cons]; exact List.mem_cons_of_mem _ hin)

lemma mem_set_update : ∀ (page acc : List String) {u : String}, u ∈ set_update acc page →
    u ∈ acc ∨ u ∈ page := by
  intro page
  induction page with
  | nil =>
    intro acc u h
    exact Or.inl h
  | cons p ps ih =>
    intro acc u h
    simp only [set_update, List.foldl_cons] at h
    rcases ih _ h with h2 | h2
    · split_ifs at h2 with hp
      · exact Or.inl h2
      · rcases List.mem_append.mp h2 with h3 | h3
        · exact Or.inl h3
        · simp at h3
          subst h3
          exact Or.inr (List.mem_cons_self _ _)
    · exact Or.inr (List.mem_cons_of_mem _ h2)

lemma mem_collect_page_links {hrefs : List (Option String)} {u : String}
    (h : u ∈ collect_page_links hrefs) : ∃ s, some s ∈ hrefs ∧ s ≠ "" ∧ u = canonical s := by
  unfold collect_page_links at h
  rcases List.mem_map.mp h with ⟨s, hs, rfl⟩
  rcases List.mem_filter.mp hs with ⟨hs2, hs3⟩
  refine ⟨s, ?_, by simpa using hs3, rfl⟩
  rcases List.mem_filterMap.mp hs2 with ⟨o, ho, hid⟩
  cases o with
  | none => cases hid
  | some v =>
    simp only [id] at hid
    rw [← hid]
    exact ho

lemma load_listings_fold_canonical : ∀ (pages : List (List (Option String)))
    (acc : List String) {u : String},
    u ∈ pages.foldl (fun acc page => set_update acc (collect_page_links page)) acc →
    u ∈ acc ∨ ∃ s, some s ∈ pages.flatten ∧ s ≠ "" ∧ u = canonical s := by
  intro pages
  induction pages with
  | nil =>
    intro acc u h
    exact Or.inl h
  | cons p ps ih =>
    intro acc u h
    simp only [List.foldl_cons] at h
    rcases ih _ h with h2 | ⟨s, hs1, hs2, hs3⟩
    · rcases mem_set_update _ _ h2 with h3 | h3
      · exact Or.inl h3
      · rcases mem_collect_page_links h3 with ⟨s, hs1, hs2, hs3⟩
        exact Or.inr ⟨s, by simp [hs1], hs2, hs3⟩
    · exact Or.inr ⟨s, by simp only [List.flatten_cons]; exact List.mem_append_right _ hs1,
        hs2, hs3⟩

/-- C3 counterexample: two scraped hrefs sharing a canonical form but with
different query strings; `_load_all_listings` keeps exactly one entry for the
canonical form, but that entry is the query-stripped canonical form itself,
which is not one of the original query-bearing variants. -/
theorem load_all_listings_strips_queries :
    load_all_listings [[some "https://ex.com/p?a=1", some "https://ex.com/p?b=2"]] =
      ["https://ex.com/p"] ∧
    ¬("https://ex.com/p" = "https://ex.com/p?a=1" ∨
      "https://ex.com/p" = "https://ex.com/p?b=2") := by decide

/-- C3 amended: in `scrape_property_urls` every returned URL is one of the
scraped hrefs (an original query-bearing variant), the returned URLs have
pairwise distinct canonical forms, and, before the testing cap is applied,
every truthy href's canonical form is represented; in
`BookingApartmentScraper._load_all_listings`, by contrast, every stored entry
is the query-stripped canonical form of some scraped href, not the original
variant. -/
theorem url_discovery_dedup :
    (∀ (hrefs : List (Option String)) (u : String),
      u ∈ scrape_property_urls hrefs → some u ∈ hrefs) ∧
    (∀ hrefs : List (Option String),
      ((scrape_property_urls hrefs).map canonical).Nodup) ∧
    (∀ (hrefs : List (Option String)) (h : String), some h ∈ hrefs → h ≠ "" →
      canonical h ∈ (collect_urls hrefs []).map canonical) ∧
    (∀ (pages : List (List (Option String))) (u : String), u ∈ load_all_listings pages →
      ∃ s, some s ∈ pages.flatten ∧ s ≠ "" ∧ u = canonical s) := by
  refine ⟨?_, ?_, ?_, ?_⟩
  · intro hrefs u hu
    simp only [scrape_property_urls, if_pos (by decide : TEST_MAX_PROPERTIES ≠ 0)] at hu
    exact collect_urls_subset hrefs [] (List.take_subset _ _ hu)
  · intro hrefs
    simp only [scrape_property_urls, if_pos (by decide : TEST_MAX_PROPERTIES ≠ 0)]
    rw [List.map_take]
    exact (collect_urls_nodup_inv hrefs []).1.sublist (List.take_sublist _ _)
  · intro hrefs h hm hne
    rcases collect_urls_complete hrefs [] h hm hne with hin | hin
    · cases hin
    · exact hin
  · intro pages u hu
    rcases load_listings_fold_canonical pages [] hu with h | h
    · cases h
    · exact h

/-- C3 witness: the first clause applied to a singleton href list. -/
theorem url_discovery_dedup_witness :
    some "https://ex.com/p?a=1" ∈ [some "https://ex.com/p?a=1"] :=
  url_discovery_dedup.1 [some "https://ex.com/p?a=1"] "https://ex.com/p?a=1" (by decide)

lemma filterMap_eq_map_of_all_some {α β : Type} {f : α → Option β} {g : α → β} :
    ∀ {l : List α}, (∀ x ∈ l, f x = some (g x)) → l.filterMap f = l.map g := by
  intro l
  induction l with
  | nil => intro _; rfl
  | cons a t ih =>
    intro h
    rw [List.filterMap_cons, h a (List.mem_cons_self _ _), List.map_cons,
      ih (fun x hx => h x (List.mem_cons_of_mem _ hx))]

lemma flatten_range_slices {α : Type} (l : List α) (cs : Nat) :
    ∀ j, ((List.range j).map (fun i => (l.drop (i * cs)).take cs)).flatten = l.take (j * cs) := by
  intro j
  induction j with
  | zero => simp
  | succ j ih =>
    rw [List.range_succ, List.map_append, List.flatten_append, ih]
    simp only [List.map_cons, List.map_nil, List.flatten_cons, List.flatten_nil,
      List.append_nil]
    rw [Nat.succ_mul, List.take_add]

lemma chunk_urls_struct {α : Type} (urls : List α) (n : Nat) (h1 : 1 ≤ n)
    (h2 : n ≤ urls.length) :
    chunk_urls urls n =
      ((List.range (n - 1)).map
        (fun i => (urls.drop (i * (urls.length / n))).take (urls.length / n))) ++
      [urls.drop ((n - 1) * (urls.length / n))] := by
  obtain ⟨k, rfl⟩ : ∃ k, n = k + 1 := ⟨n - 1, by omega⟩
  simp only [Nat.add_sub_cancel]
  have hcs : 1 ≤ urls.length / (k + 1) := (Nat.one_le_div_iff (by omega)).mpr h2
  have hmul : (k + 1) * (urls.length / (k + 1)) ≤ urls.length := by
    rw [Nat.mul_comm]
    exact Nat.div_mul_le_self _ _
  have hlt : ∀ i, i < k + 1 → i * (urls.length / (k + 1)) < urls.length := by
    intro i hi
    have h3 : (i + 1) * (urls.length / (k + 1)) ≤ (k + 1) * (urls.length / (k + 1)) :=
      Nat.mul_le_mul_right _ hi
    rw [Nat.succ_mul] at h3
    omega
  simp only [chunk_urls]
  rw [List.range_succ, List.filterMap_append]
  congr 1
  · apply filterMap_eq_map_of_all_some
    intro i hi
    have hik := List.mem_range.mp hi
    have hlt2 := hlt i (by omega)
    rw [if_pos hlt2, if_neg (by omega : ¬ i = k + 1 - 1)]
    simp
  · have hltk := hlt k (by omega)
    simp only [List.filterMap_cons, List.filterMap_nil]
    rw [if_pos (by simpa using hltk)]
    rw [List.take_of_length_le (by simp)]

/-- C2: for `1 ≤ n ≤ m` the chunking step of `scrape_booking_properties`
partitions the URL list exactly — the chunks concatenate back to the input
(pairwise disjoint, no omission), there are `min n m = n` chunks, chunks
`0..n-2` have exactly `m / n` URLs each, and the last chunk has the
remaining `m - (n-1)*(m / n)`. -/
theorem chunk_urls_partition {α : Type} (urls : List α) (n : Nat) (h1 : 1 ≤ n)
    (h2 : n ≤ urls.length) :
    (chunk_urls urls n).flatten = urls ∧
    (chunk_urls urls n).length = min n urls.length ∧
    (∀ i, i < n - 1 → ((chunk_urls urls n).getD i []).length = urls.length / n) ∧
    ((chunk_urls urls n).getD (n - 1) []).length =
      urls.length - (n - 1) * (urls.length / n) := by
  have hstruct := chunk_urls_struct urls n h1 h2
  have hcs : 1 ≤ urls.length / n := (Nat.one_le_div_iff (by omega)).mpr h2
  have hmul : n * (urls.length / n) ≤ urls.length := by
    rw [Nat.mul_comm]
    exact Nat.div_mul_le_self _ _
  have hlen1 : ((List.range (n - 1)).map
      (fun i => (urls.drop (i * (urls.length / n))).take (urls.length / n))).length = n - 1 := by
    rw [List.length_map, List.length_range]
  refine ⟨?_, ?_, ?_, ?_⟩
  · rw [hstruct, List.flatten_append, flatten_range_slices]
    simp only [List.flatten_cons, List.flatten_nil, List.append_nil]
    exact List.take_append_drop _ _
  · rw [hstruct, List.length_append, hlen1, Nat.min_eq_left h2]
    simp only [List.length_cons, List.length_nil]
    omega
  · intro i hi
    rw [hstruct, List.getD_eq_getElem?_getD, List.getElem?_append,
      if_pos (by omega : i < ((List.range (n - 1)).map
        (fun j => (urls.drop (j * (urls.length / n))).take (urls.length / n))).length),
      List.getElem?_map, List.getElem?_range hi]
    simp only [Option.map_some', Option.getD_some]
    rw [List.length_take, List.length_drop]
    have h3 : (i + 1) * (urls.length / n) ≤ (n - 1) * (urls.length / n) :=
      Nat.mul_le_mul_right _ (by omega)
    rw [Nat.succ_mul] at h3
    have h4 : (n - 1) * (urls.length / n) ≤ n * (urls.length / n) :=
      Nat.mul_le_mul_right _ (by omega)
    omega
  · rw [hstruct, List.getD_eq_getElem?_getD, List.getElem?_append_right (by omega),
      hlen1]
    simp only [Nat.sub_self, List.getElem?_cons_zero, Option.getD_some]
    rw [List.length_drop]

/-- C2 witness: 7 URLs across 3 workers — chunks concatenate to the input,
there are 3 chunks, the first has 7 div 3 = 2 URLs and the last has the
remainder 3. -/
theorem chunk_urls_partition_witness :
    (chunk_urls [10, 20, 30, 40, 50, 60, 70] 3).flatten = [10, 20, 30, 40, 50, 60, 70] ∧
    (chunk_urls [10, 20, 30, 40, 50, 60, 70] 3).length = 3 ∧
    ((chunk_urls [10, 20, 30, 40, 50, 60, 70] 3).getD 0 []).length = 2 ∧
    ((chunk_urls [10, 20, 30, 40, 50, 60, 70] 3).getD 2 []).length = 3 :=
  have h := chunk_urls_partition [10, 20, 30, 40, 50, 60, 70] 3 (by decide) (by decide)
  ⟨h.1, by simpa using h.2.1, by simpa using h.2.2.1 0 (by decide), by simpa using h.2.2.2⟩

/-- C1 counterexample: writing batch A with dynamic columns x,y to a fresh
store and then batch B with columns y,z leaves the persisted header at the
30 predefined base fields plus x and y — the header is not "exactly
:x,y,z:" (it contains `property_id`), and the second write does not extend
the persisted header with z. -/
theorem save_to_csv_header_not_extended :
    headerOf (save_to_csv [[("y", some "3"), ("z", some "4")]]
      (save_to_csv [[("x", some "1"), ("y", some "2")]] none)) =
      all_possible_fields ++ ["x", "y"] ∧
    "z" ∉ headerOf (save_to_csv [[("y", some "3"), ("z", some "4")]]
      (save_to_csv [[("x", some "1"), ("y", some "2")]] none)) ∧
    "property_id" ∈ headerOf (save_to_csv [[("y", some "3"), ("z", some "4")]]
      (save_to_csv [[("x", some "1"), ("y", some "2")]] none)) := by decide

/-- C1 amended: on a fresh store `save_to_csv` persists the header
`base fields ++ sorted new fields` and one row per record with one cell per
header column; on an existing store the persisted header is never rewritten
— fields the batch introduces only extend the in-memory field order rows
are laid out by, so every appended row has one cell per merged in-memory
column, at least as many as the persisted header has. -/
theorem save_to_csv_schema (batch : List Item) (hdr : List String)
    (rows : List (List String)) (hb : batch ≠ []) :
    save_to_csv batch none =
      some (all_possible_fields ++ dynamic_fields batch, row_block [] batch) ∧
    save_to_csv batch (some (hdr, rows)) = some (hdr, rows ++ row_block hdr batch) ∧
    (∀ r ∈ row_block hdr batch, r.length = (merged_fieldnames hdr batch).length) ∧
    hdr.length ≤ (merged_fieldnames hdr batch).length := by
  obtain ⟨b, bs, rfl⟩ : ∃ b bs, batch = b :: bs := by
    cases batch with
    | nil => exact absurd rfl hb
    | cons b bs => exact ⟨b, bs, rfl⟩
  refine ⟨rfl, rfl, ?_, ?_⟩
  · intro r hr
    rcases List.mem_map.mp hr with ⟨it, _, rfl⟩
    exact List.length_map _ _
  · unfold merged_fieldnames
    by_cases hh : hdr = []
    · rw [if_pos hh, hh]
      exact Nat.zero_le _
    · rw [if_neg hh, List.length_append]
      exact Nat.le_add_right _ _

/-- C1 witness: a concrete one-record batch against a fresh store and
against a store whose header is `["title"]`. -/
theorem save_to_csv_schema_witness :
    save_to_csv [[("x", some "1")]] none =
      some (all_possible_fields ++ dynamic_fields [[("x", some "1")]],
        row_block [] [[("x", some "1")]]) ∧
    save_to_csv [[("x", some "1")]] (some (["title"], [])) =
      some (["title"], [] ++ row_block ["title"] [[("x", some "1")]]) ∧
    (["title"] : List String).length ≤
      (merged_fieldnames ["title"] [[("x", some "1")]]).length :=
  have h := save_to_csv_schema [[("x", some "1")]] ["title"] [] (by decide)
  ⟨h.1, h.2.1, h.2.2.2⟩

/-- C8: every record accepted into a worker's batch before its loop
terminates — normal exhaustion or a KeyboardInterrupt observed at the
per-URL loop boundary — is contained in one of the batches the worker
flushes to the CSV sink; in particular the batch pending at an interrupt is
flushed before termination, so no accepted record is silently dropped. -/
theorem worker_flushes_no_loss {α β : Type} (scrape : α → Option β) (intr : Nat → Bool)
    (total bs : Nat) :
    ∀ (urls : List α) (i : Nat) (batch : List β) (r : β),
      r ∈ batch ++ accepted_until scrape intr urls i →
      r ∈ (worker_flushes scrape intr total bs urls i batch).flatten := by
  intro urls
  induction urls with
  | nil =>
    intro i batch r hr
    simp only [accepted_until, List.append_nil] at hr
    simp only [worker_flushes]
    cases batch with
    | nil => cases hr
    | cons b bs2 => simpa [flush_if_nonempty] using hr
  | cons u rest ih =>
    intro i batch r hr
    simp only [worker_flushes, accepted_until] at hr ⊢
    by_cases hintr : intr i = true
    · rw [if_pos hintr] at hr ⊢
      rw [List.append_nil] at hr
      cases batch with
      | nil => cases hr
      | cons b bs2 =>
        simp only [flush_if_nonempty, List.flatten_append, List.flatten_cons,
          List.flatten_nil, List.append_nil]
        exact List.mem_append_left _ hr
    · rw [if_neg hintr] at hr ⊢
      cases hs : scrape u with
      | none =>
        simp only [hs] at hr ⊢
        exact ih (i + 1) batch r hr
      | some v =>
        simp only [hs] at hr ⊢
        by_cases hflush : bs ≤ (batch ++ [v]).length ∨ i = total
        · rw [if_pos hflush]
          simp only [List.flatten_cons]
          have hsplit : r ∈ (batch ++ [v]) ∨ r ∈ accepted_until scrape intr rest (i + 1) := by
            simp only [List.mem_append, List.mem_cons, List.mem_singleton] at hr ⊢
            tauto
          rcases hsplit with h | h
          · exact List.mem_append_left _ h
          · exact List.mem_append_right _ (ih (i + 1) [] r (by simpa using h))
        · rw [if_neg hflush]
          apply ih (i + 1) (batch ++ [v]) r
          simp only [List.mem_append, List.mem_cons, List.mem_singleton] at hr ⊢
          tauto

/-- C8 witness: a worker interrupted at its second URL still flushes the
record accepted at its first URL. -/
theorem worker_flushes_no_loss_witness :
    (10 : Nat) ∈
      (worker_flushes (fun u : Nat => some u) (fun i => i == 2) 3 5 [10, 20, 30] 1 []).flatten :=
  worker_flushes_no_loss (fun u : Nat => some u) (fun i => i == 2) 3 5 [10, 20, 30] 1 [] 10
    (by decide)

/-- C9: a KeyboardInterrupt at the loop boundary with a non-empty pending
batch makes the worker pass that same batch to `save_to_csv` twice — once
in the `except` handler and once in the `finally` block, the batch not being
cleared in between — and on an existing store the two flushes append the
same row block twice, so every pending record's row is persisted twice. -/
theorem worker_interrupt_double_flush {α : Type} (scrape : α → Option Item)
    (intr : Nat → Bool) (total bs : Nat) (u : α) (rest : List α) (i : Nat)
    (batch : List Item) (hdr : List String) (rows : List (List String))
    (hintr : intr i = true) (hb : batch ≠ []) :
    worker_flushes scrape intr total bs (u :: rest) i batch = [batch, batch] ∧
    (worker_flushes scrape intr total bs (u :: rest) i batch).foldl
        (fun store b => save_to_csv b store) (some (hdr, rows)) =
      some (hdr, rows ++ row_block hdr batch ++ row_block hdr batch) := by
  obtain ⟨b, bs2, rfl⟩ : ∃ b bs2, batch = b :: bs2 := by
    cases batch with
    | nil => exact absurd rfl hb
    | cons b bs2 => exact ⟨b, bs2, rfl⟩
  have h1 : worker_flushes scrape intr total bs (u :: rest) i (b :: bs2) =
      [b :: bs2, b :: bs2] := by
    simp only [worker_flushes]
    rw [if_pos hintr]
    rfl
  refine ⟨h1, ?_⟩
  rw [h1]
  simp only [List.foldl_cons, List.foldl_nil]
  have hsave : ∀ rs : List (List String), save_to_csv (b :: bs2) (some (hdr, rs)) =
      some (hdr, rs ++ row_block hdr (b :: bs2)) := fun rs => rfl
  rw [hsave, hsave, List.append_assoc]

/-- C9 witness: a worker interrupted at its only URL with one pending record
flushes that batch twice, appending its row to the store twice. -/
theorem worker_interrupt_double_flush_witness :
    worker_flushes (fun _ : Nat => (none : Option Item)) (fun i => i == 1) 1 5 [7] 1
        [[("title", some "A")]] =
      [[[("title", some "A")]], [[("title", some "A")]]] ∧
    (worker_flushes (fun _ : Nat => (none : Option Item)) (fun i => i == 1) 1 5 [7] 1
        [[("title", some "A")]]).foldl
        (fun store b => save_to_csv b store) (some (["title"], [])) =
      some (["title"], [] ++ row_block ["title"] [[("title", some "A")]] ++
        row_block ["title"] [[("title", some "A")]]) :=
  worker_interrupt_double_flush (fun _ : Nat => (none : Option Item)) (fun i => i == 1) 1 5 7
    [] 1 [[("title", some "A")]] ["title"] [] (by decide) (by decide)
